import Mathlib

/-!
Shallow embedding of the WebGL texture-atlas cache and instanced edge
batcher of the cytoscape.js canvas renderer
(src/extensions/renderer/canvas/webgl/atlas.mjs and
src/extensions/renderer/canvas/webgl/drawing-edges-webgl.js).

JavaScript numbers are modelled as exact rationals, JS Map and Set as
association lists and lists preserving insertion order, and object
identity of atlases as a numeric id allocated from a counter.
-/

namespace Cytoscape

/-- Association-list lookup, modelling `Map.get`. -/
def lookupKey {β : Type} : List (String × β) → String → Option β
  | [], _ => none
  | (k, v) :: rest, key => if k = key then some v else lookupKey rest key

/-- Association-list update, modelling `Map.set` (an existing key keeps its
position, a new key is appended, matching JS Map insertion order). -/
def setKey {β : Type} : List (String × β) → String → β → List (String × β)
  | [], key, v => [(key, v)]
  | (k, w) :: rest, key, v =>
    if k = key then (key, v) :: rest else (k, w) :: setKey rest key v

theorem lookupKey_setKey_self {β : Type} (m : List (String × β)) (k : String) (v : β) :
    lookupKey (setKey m k v) k = some v := by
  induction m with
  | nil => simp [setKey, lookupKey]
  | cons p rest ih =>
    obtain ⟨k0, v0⟩ := p
    by_cases h : k0 = k <;> simp [setKey, lookupKey, h, ih]

theorem lookupKey_setKey_ne {β : Type} (m : List (String × β)) (k k' : String) (v : β)
    (h : k' ≠ k) : lookupKey (setKey m k v) k' = lookupKey m k' := by
  have hne : ¬ k = k' := fun h2 => h h2.symm
  induction m with
  | nil => simp [setKey, lookupKey, hne]
  | cons p rest ih =>
    obtain ⟨k0, v0⟩ := p
    by_cases h0 : k0 = k
    · subst h0
      simp [setKey, lookupKey, hne]
    · simp only [setKey, if_neg h0, lookupKey]
      by_cases h1 : k0 = k' <;> simp [h1, ih]

theorem isSome_lookupKey_setKey {β : Type} (m : List (String × β)) (k k' : String) (v : β) :
    (lookupKey (setKey m k v) k').isSome ↔ k' = k ∨ (lookupKey m k').isSome := by
  by_cases h : k' = k
  · subst h; simp [lookupKey_setKey_self]
  · rw [lookupKey_setKey_ne m k k' v h]; simp [h]

theorem mem_of_lookupKey {β : Type} (m : List (String × β)) (k : String) (v : β)
    (h : lookupKey m k = some v) : (k, v) ∈ m := by
  induction m with
  | nil => simp [lookupKey] at h
  | cons p rest ih =>
    obtain ⟨k0, v0⟩ := p
    by_cases h0 : k0 = k
    · subst h0
      simp only [lookupKey, eq_self_iff_true, if_true, Option.some.injEq] at h
      subst h
      exact List.mem_cons_self _ _
    · simp only [lookupKey, if_neg h0] at h
      exact List.mem_cons_of_mem _ (ih h)

theorem mem_setKey {β : Type} (m : List (String × β)) (k : String) (v : β)
    (p : String × β) (h : p ∈ setKey m k v) : p ∈ m ∨ p = (k, v) := by
  induction m with
  | nil => simp [setKey] at h; simp [h]
  | cons q rest ih =>
    obtain ⟨k0, v0⟩ := q
    by_cases h0 : k0 = k
    · subst h0
      simp only [setKey, if_pos rfl] at h
      rcases List.mem_cons.mp h with h1 | h1
      · right; exact h1
      · left; exact List.mem_cons_of_mem _ h1
    · simp only [setKey, if_neg h0] at h
      rcases List.mem_cons.mp h with h1 | h1
      · left; simp [h1]
      · rcases ih h1 with h2 | h2
        · left; exact List.mem_cons_of_mem _ h2
        · right; exact h2

theorem isSome_lookupKey_iff_mem_fst {β : Type} (m : List (String × β)) (k : String) :
    (lookupKey m k).isSome ↔ k ∈ m.map Prod.fst := by
  induction m with
  | nil => simp [lookupKey]
  | cons p rest ih =>
    obtain ⟨k0, v0⟩ := p
    by_cases h : k0 = k
    · subst h; simp [lookupKey]
    · have h2 : ¬ k = k0 := fun h3 => h h3.symm
      simp [lookupKey, h, h2, ih]

theorem isSome_lookupKey_setKey_of_isSome {β : Type} (m : List (String × β))
    (k k' : String) (v : β) (h : (lookupKey m k').isSome) :
    (lookupKey (setKey m k v) k').isSome := by
  rw [isSome_lookupKey_setKey]; right; exact h

/-- Bounding box handed to `draw`; only `w` and `h` are read by the atlas. -/
structure BB where
  w : ℚ
  h : ℚ
deriving DecidableEq

/-- A location inside an atlas texture, in texture pixels. -/
structure Loc where
  x : ℚ
  y : ℚ
  w : ℚ
  h : ℚ
deriving DecidableEq

/-- The atlas placement cursor (`freePointer` in the source): an x offset
into the current row plus the row number. -/
structure FreePointer where
  x : ℚ
  row : ℕ
deriving DecidableEq

/-- Result of `Atlas.getScale`. -/
structure ScaleResult where
  scale : ℚ
  texW : ℚ
  texH : ℚ
deriving DecidableEq

/-- A single square texture atlas. `id` stands for JS object identity
(the source carries a random `debugID`; here ids are allocated from the
collection counter). Canvas pixel contents are not modelled; placement,
keys and flags are. -/
structure Atlas where
  id : ℕ
  texSize : ℕ
  texRows : ℕ
  texHeight : ℕ
  enableWrapping : Bool
  locked : Bool
  needsBuffer : Bool
  freePointer : FreePointer
  keyToLocation : List (String × (Loc × Loc))
deriving DecidableEq

instance : Inhabited Atlas :=
  ⟨{ id := 0, texSize := 0, texRows := 0, texHeight := 0, enableWrapping := true,
     locked := false, needsBuffer := true, freePointer := ⟨0, 0⟩, keyToLocation := [] }⟩

/-- The `Atlas` constructor: `texHeight = Math.floor(texSize / texRows)`,
wrapping enabled (hardcoded in the source), unlocked, cursor at origin. -/
def Atlas.create (id texSize texRows : ℕ) : Atlas :=
  { id := id, texSize := texSize, texRows := texRows,
    texHeight := texSize / texRows, enableWrapping := true,
    locked := false, needsBuffer := true,
    freePointer := ⟨0, 0⟩, keyToLocation := [] }

/-- `Atlas.lock`. -/
def Atlas.lock (a : Atlas) : Atlas := { a with locked := true }

/-- `Atlas.getKeys` (key set in insertion order). -/
def Atlas.getKeys (a : Atlas) : List String := a.keyToLocation.map Prod.fst

/-- `Atlas.getScale`: fit the bounding box height to a row; if the scaled
width exceeds the texture width, refit to the texture width. -/
def Atlas.getScale (a : Atlas) (bb : BB) : ScaleResult :=
  let scale : ℚ := (a.texHeight : ℚ) / bb.h
  let texW := bb.w * scale
  let texH := bb.h * scale
  if texW > (a.texSize : ℚ) then
    let scale2 : ℚ := (a.texSize : ℚ) / bb.w
    ⟨scale2, bb.w * scale2, bb.h * scale2⟩
  else
    ⟨scale, texW, texH⟩

/-- `Atlas.getOffsets`. -/
def Atlas.getOffsets (a : Atlas) (key : String) : Option (Loc × Loc) :=
  lookupKey a.keyToLocation key

/-- Result of `Atlas.draw`: the two recorded locations, the
`NotEnoughRoom` failure (`return false` in the source), or the exception
thrown when the atlas is locked. -/
inductive DrawResult where
  | ok (loc1 loc2 : Loc)
  | notEnoughRoom
  | lockedError
deriving DecidableEq

/-- `Atlas.draw`: places the scaled bounding box at the cursor, on the next
row, or wrapped across two rows. Returns the result, the updated atlas, and
the number of invocations of the `doDrawing` paint callback. -/
def Atlas.draw (a : Atlas) (key : String) (bb : BB) : DrawResult × Atlas × ℕ :=
  if a.locked then (.lockedError, a, 0) else
  let s := a.getScale bb
  let texSizeQ : ℚ := (a.texSize : ℚ)
  let drawNormal : FreePointer → Loc × Loc × FreePointer := fun p =>
    let loc1 : Loc := ⟨p.x, ((p.row * a.texHeight : ℕ) : ℚ), s.texW, s.texH⟩
    let loc2 : Loc := ⟨p.x + s.texW, ((p.row * a.texHeight : ℕ) : ℚ), 0, s.texH⟩
    let x2 := p.x + s.texW
    let p2 : FreePointer := if x2 = texSizeQ then ⟨0, p.row + 1⟩ else ⟨x2, p.row⟩
    (loc1, loc2, p2)
  let finish : Loc × Loc × FreePointer → DrawResult × Atlas × ℕ := fun r =>
    (.ok r.1 r.2.1,
     { a with freePointer := r.2.2,
              keyToLocation := setKey a.keyToLocation key (r.1, r.2.1),
              needsBuffer := true }, 1)
  if a.freePointer.x + s.texW ≤ texSizeQ then
    finish (drawNormal a.freePointer)
  else if a.freePointer.row ≥ a.texRows - 1 then
    (.notEnoughRoom, a, 0)
  else if a.freePointer.x = texSizeQ then
    finish (drawNormal ⟨0, a.freePointer.row + 1⟩)
  else if a.enableWrapping then
    let firstTexW := texSizeQ - a.freePointer.x
    let secondTexW := s.texW - firstTexW
    let loc1 : Loc := ⟨a.freePointer.x, ((a.freePointer.row * a.texHeight : ℕ) : ℚ),
                       firstTexW, s.texH⟩
    let loc2 : Loc := ⟨0, (((a.freePointer.row + 1) * a.texHeight : ℕ) : ℚ),
                       secondTexW, s.texH⟩
    (.ok loc1 loc2,
     { a with freePointer := ⟨secondTexW, a.freePointer.row + 1⟩,
              keyToLocation := setKey a.keyToLocation key (loc1, loc2),
              needsBuffer := true }, 1)
  else
    finish (drawNormal ⟨0, a.freePointer.row + 1⟩)

/-- `Atlas.canFit`. -/
def Atlas.canFit (a : Atlas) (bb : BB) : Bool :=
  if a.locked then false else
  let s := a.getScale bb
  if a.freePointer.x + s.texW > (a.texSize : ℚ) then
    decide (a.freePointer.row < a.texRows - 1)
  else
    true

/-- `Atlas.isEmpty`. -/
def Atlas.isEmpty (a : Atlas) : Bool :=
  a.freePointer.x = 0 && a.freePointer.row = 0

/-- The `intersection` helper at the bottom of atlas.mjs
(`[...set1].filter(x => set2.has(x))`). -/
def intersection (set1 set2 : List String) : List String :=
  set1.filter (fun x => set2.contains x)

/-- A collection of atlases of one render type. `styleKeyToAtlas` and the
gc key map store atlas ids in place of JS object references; `nextId` is
the id allocator standing for object allocation. -/
structure AtlasCollection where
  texSize : ℕ
  texRows : ℕ
  nextId : ℕ
  atlases : List Atlas
  styleKeyToAtlas : List (String × ℕ)
  markedKeys : List String
deriving DecidableEq

/-- The `AtlasCollection` constructor. -/
def AtlasCollection.create (texSize texRows : ℕ) : AtlasCollection :=
  { texSize := texSize, texRows := texRows, nextId := 0,
    atlases := [], styleKeyToAtlas := [], markedKeys := [] }

/-- `AtlasCollection._createAtlas` (allocates the next id). -/
def AtlasCollection.createAtlas (c : AtlasCollection) : Atlas :=
  Atlas.create c.nextId c.texSize c.texRows

/-- `AtlasCollection.draw`: on a cache hit return the owning atlas;
otherwise draw into the last atlas if it fits, else lock it and append a
fresh one. Returns the id of the returned atlas, the new collection state,
and the number of paint-callback invocations. -/
def AtlasCollection.draw (c : AtlasCollection) (key : String) (bb : BB) :
    ℕ × AtlasCollection × ℕ :=
  match lookupKey c.styleKeyToAtlas key with
  | some id => (id, c, 0)
  | none =>
    match c.atlases.getLast? with
    | some last =>
      if last.canFit bb then
        let r := last.draw key bb
        (last.id,
         { c with atlases := c.atlases.dropLast ++ [r.2.1],
                  styleKeyToAtlas := setKey c.styleKeyToAtlas key last.id },
         r.2.2)
      else
        let fresh := c.createAtlas
        let r := fresh.draw key bb
        (fresh.id,
         { c with atlases := c.atlases.dropLast ++ [last.lock, r.2.1],
                  styleKeyToAtlas := setKey c.styleKeyToAtlas key fresh.id,
                  nextId := c.nextId + 1 },
         r.2.2)
    | none =>
      let fresh := c.createAtlas
      let r := fresh.draw key bb
      (fresh.id,
       { c with atlases := [r.2.1],
                styleKeyToAtlas := setKey c.styleKeyToAtlas key fresh.id,
                nextId := c.nextId + 1 },
       r.2.2)

/-- `AtlasCollection.getAtlas`. -/
def AtlasCollection.getAtlas (c : AtlasCollection) (key : String) : Option ℕ :=
  lookupKey c.styleKeyToAtlas key

/-- `AtlasCollection.markKeyForGC` (`Set.add`). -/
def AtlasCollection.markKeyForGC (c : AtlasCollection) (key : String) : AtlasCollection :=
  { c with markedKeys :=
      if c.markedKeys.contains key then c.markedKeys else c.markedKeys ++ [key] }

/-- `AtlasCollection._copyTextureToNewAtlas`: re-draw a kept entry into the
destination atlas via the standard `draw` path. Non-wrapped entries use the
first location as the bounding box; wrapped entries are stitched to width
`s1.w + s2.w` first. Pixel blits are not modelled; key placement is. -/
def copyTextureToNewAtlas (key : String) (oldAtlas newAtlas : Atlas) : Atlas :=
  match lookupKey oldAtlas.keyToLocation key with
  | none => newAtlas
  | some s =>
    if s.2.w = 0 then
      (newAtlas.draw key ⟨s.1.w, s.1.h⟩).2.1
    else
      (newAtlas.draw key ⟨s.1.w + s.2.w, s.1.h⟩).2.1

/-- One entry of the `newAtlases` array being built by `gc`: either a
finalized atlas, or the slot where the live `newAtlas` object sits (the JS
array holds a reference that later draws keep mutating). -/
inductive GItem where
  | fixed (a : Atlas)
  | slot
deriving DecidableEq

/-- Replace the first slot by a finalized atlas (the live `newAtlas` object
gets locked and stops changing). -/
def fillSlot : List GItem → Atlas → List GItem
  | [], _ => []
  | GItem.slot :: rest, a => GItem.fixed a :: rest
  | GItem.fixed b :: rest, a => GItem.fixed b :: fillSlot rest a

/-- Materialize the `newAtlases` array: the slot holds the current state of
the live `newAtlas`. -/
def resolveItems (cur : Option Atlas) : List GItem → List Atlas
  | [] => []
  | GItem.fixed a :: rest => a :: resolveItems cur rest
  | GItem.slot :: rest => cur.getD default :: resolveItems cur rest

/-- The inner loop of `gc` over the keys of one source atlas: kept keys are
re-drawn into the live destination atlas, locking it and allocating a new
destination when it cannot fit. Returns the updated items, live atlas, key
map and id counter. -/
def copyKeysLoop (texSize texRows : ℕ) (oldAtlas : Atlas) (keysToCollect : List String) :
    List String → List GItem → Atlas → List (String × ℕ) → ℕ →
    List GItem × Atlas × List (String × ℕ) × ℕ
  | [], items, cur, nm, nid => (items, cur, nm, nid)
  | key :: rest, items, cur, nm, nid =>
    if keysToCollect.contains key then
      copyKeysLoop texSize texRows oldAtlas keysToCollect rest items cur nm nid
    else
      match lookupKey oldAtlas.keyToLocation key with
      | none => copyKeysLoop texSize texRows oldAtlas keysToCollect rest items cur nm nid
      | some s =>
        if cur.canFit ⟨s.1.w + s.2.w, s.1.h⟩ then
          let cur2 := copyTextureToNewAtlas key oldAtlas cur
          copyKeysLoop texSize texRows oldAtlas keysToCollect rest items cur2
            (setKey nm key cur2.id) nid
        else
          let items2 := fillSlot items cur.lock ++ [GItem.slot]
          let fresh := Atlas.create nid texSize texRows
          let cur2 := copyTextureToNewAtlas key oldAtlas fresh
          copyKeysLoop texSize texRows oldAtlas keysToCollect rest items2 cur2
            (setKey nm key cur2.id) (nid + 1)

/-- The outer loop of `gc` over the source atlases: an atlas with no marked
key is retained as is; otherwise its kept keys are copied into the live
destination atlas (created on first need) and the source is disposed. -/
def gcLoop (texSize texRows : ℕ) (marked : List String) :
    List Atlas → List GItem → Option Atlas → List (String × ℕ) → ℕ →
    List GItem × Option Atlas × List (String × ℕ) × ℕ
  | [], items, cur, nm, nid => (items, cur, nm, nid)
  | atlas :: rest, items, cur, nm, nid =>
    let keys := atlas.getKeys
    let keysToCollect := intersection marked keys
    if keysToCollect.isEmpty then
      let nm2 := keys.foldl (fun m k => setKey m k atlas.id) nm
      gcLoop texSize texRows marked rest (items ++ [GItem.fixed atlas]) cur nm2 nid
    else
      match cur with
      | none =>
        let fresh := Atlas.create nid texSize texRows
        let r := copyKeysLoop texSize texRows atlas keysToCollect keys
          (items ++ [GItem.slot]) fresh nm (nid + 1)
        gcLoop texSize texRows marked rest r.1 (some r.2.1) r.2.2.1 r.2.2.2
      | some c0 =>
        let r := copyKeysLoop texSize texRows atlas keysToCollect keys items c0 nm nid
        gcLoop texSize texRows marked rest r.1 (some r.2.1) r.2.2.1 r.2.2.2

/-- `AtlasCollection.gc`: mark-and-sweep compaction. Returns immediately
when nothing is marked; otherwise rebuilds `atlases` and `styleKeyToAtlas`
and clears `markedKeys`. -/
def AtlasCollection.gc (c : AtlasCollection) : AtlasCollection :=
  if c.markedKeys.isEmpty then c
  else
    let r := gcLoop c.texSize c.texRows c.markedKeys c.atlases [] none [] c.nextId
    { c with atlases := resolveItems r.2.1 r.1,
             styleKeyToAtlas := r.2.2.1,
             markedKeys := [],
             nextId := r.2.2.2 }

/-- An operation on an `AtlasCollection`, for stating reachability. -/
inductive CollOp where
  | draw (key : String) (bb : BB)
  | mark (key : String)
  | gc
deriving DecidableEq

/-- Apply one collection operation (results of `draw` are discarded). -/
def applyCollOp (c : AtlasCollection) : CollOp → AtlasCollection
  | CollOp.draw k bb => (c.draw k bb).2.1
  | CollOp.mark k => c.markKeyForGC k
  | CollOp.gc => c.gc

/-- Apply a sequence of collection operations. -/
def applyCollOps (c : AtlasCollection) (ops : List CollOp) : AtlasCollection :=
  ops.foldl applyCollOp c

/-- The key is recorded in `styleKeyToAtlas`. -/
def keyMapped (c : AtlasCollection) (k : String) : Prop :=
  (lookupKey c.styleKeyToAtlas k).isSome = true

/-- The key is stored in some atlas of the collection. -/
def keyStored (c : AtlasCollection) (k : String) : Prop :=
  ∃ a ∈ c.atlases, (lookupKey a.keyToLocation k).isSome = true

/-- JS `Array.indexOf` (first occurrence; `none` stands for `-1`). -/
def indexOfAtlas : List ℕ → ℕ → Option ℕ
  | [], _ => none
  | a :: rest, target =>
    if a = target then some 0
    else (indexOfAtlas rest target).map (· + 1)

/-- The batch-assembly state of `AtlasManager`: the per-batch atlas list
(`batchAtlases`, holding atlas ids) bounded by `maxAtlasesPerBatch`
(`webglTexPerBatch`). -/
structure AtlasManager where
  maxAtlasesPerBatch : ℕ
  batchAtlases : List ℕ
deriving DecidableEq

/-- `AtlasManager.startBatch`. -/
def AtlasManager.startBatch (m : AtlasManager) : AtlasManager :=
  { m with batchAtlases := [] }

/-- `AtlasManager.getAtlasIndexForBatch`: index of the atlas in the batch,
appending when absent; `none` (JS `undefined`) when the batch is full and
the atlas is absent. -/
def AtlasManager.getAtlasIndexForBatch (m : AtlasManager) (atlas : ℕ) :
    Option ℕ × AtlasManager :=
  match indexOfAtlas m.batchAtlases atlas with
  | some i => (some i, m)
  | none =>
    if m.batchAtlases.length = m.maxAtlasesPerBatch then (none, m)
    else (some m.batchAtlases.length,
          { m with batchAtlases := m.batchAtlases ++ [atlas] })

/-- Fold a sequence of `getAtlasIndexForBatch` calls (results discarded). -/
def applyBatchCalls (m : AtlasManager) (calls : List ℕ) : AtlasManager :=
  calls.foldl (fun st a => (st.getAtlasIndexForBatch a).2) m

/-- JS `ToInt32`: reduce modulo two to the thirty-second and pick the
signed representative, as the `>>` operator does to its left operand. -/
def toInt32 (n : ℕ) : ℤ :=
  let m : ℕ := n % 2 ^ 32
  if m < 2 ^ 31 then (m : ℤ) else (m : ℤ) - 2 ^ 32

/-- One channel of the picking-index packing in `EdgeDrawing.draw`:
`((eleIndex >> shift) & 0xFF) / 0xFF` with JS signed-shift semantics
(arithmetic shift is floor division, and masking with `0xFF` is the
nonnegative remainder modulo `256`). -/
def packChannel (eleIndex : ℕ) (shift : ℕ) : ℚ :=
  (((toInt32 eleIndex / 2 ^ shift) % 256 : ℤ) : ℚ) / 255

/-- The four normalized channels written to the `aIndex` attribute view
(least-significant byte in channel 0). -/
def packIndex (eleIndex : ℕ) : ℚ × ℚ × ℚ × ℚ :=
  (packChannel eleIndex 0, packChannel eleIndex 8,
   packChannel eleIndex 16, packChannel eleIndex 24)

/-- The batching state of `EdgeDrawing`: the instance cap
(`webglBatchSize`), the running instance count, the index-attribute buffer
(slot number to packed channels), and the record of flushes (the `count`
pushed to `debugInfo` by each `endBatch` that did GPU work). -/
structure EdgeDrawing where
  maxInstances : ℕ
  instanceCount : ℕ
  indexBuffer : ℕ → ℚ × ℚ × ℚ × ℚ
  flushes : List ℕ

/-- `EdgeDrawing.startBatch`. -/
def EdgeDrawing.startBatch (d : EdgeDrawing) : EdgeDrawing :=
  { d with instanceCount := 0 }

/-- `EdgeDrawing.endBatch`: a no-op when `instanceCount` is zero, otherwise
one instanced draw call plus a debug record, then `startBatch`. -/
def EdgeDrawing.endBatch (d : EdgeDrawing) : EdgeDrawing :=
  if d.instanceCount = 0 then d
  else { d with flushes := d.flushes ++ [d.instanceCount], instanceCount := 0 }

/-- `EdgeDrawing.draw`: write the instance attributes at slot
`instanceCount` (only the picking-index view is modelled), increment the
count, and flush implicitly on reaching `maxInstances`. -/
def EdgeDrawing.draw (d : EdgeDrawing) (eleIndex : ℕ) : EdgeDrawing :=
  let i := d.instanceCount
  let d2 : EdgeDrawing :=
    { d with indexBuffer := fun j => if j = i then packIndex eleIndex else d.indexBuffer j,
             instanceCount := i + 1 }
  if d2.instanceCount ≥ d2.maxInstances then d2.endBatch else d2

/-- An operation on the edge batcher within a frame. -/
inductive EdgeOp where
  | startBatch
  | draw (eleIndex : ℕ)
  | endBatch
deriving DecidableEq

/-- Apply one edge-batcher operation. -/
def applyEdgeOp (d : EdgeDrawing) : EdgeOp → EdgeDrawing
  | EdgeOp.startBatch => d.startBatch
  | EdgeOp.draw n => d.draw n
  | EdgeOp.endBatch => d.endBatch

/-- Apply a sequence of edge-batcher operations. -/
def applyEdgeOps (d : EdgeDrawing) (ops : List EdgeOp) : EdgeDrawing :=
  ops.foldl applyEdgeOp d

/-- A concrete fresh edge batcher used by the scenario theorems. -/
def edgeDrawing0 (maxInstances : ℕ) : EdgeDrawing :=
  { maxInstances := maxInstances, instanceCount := 0,
    indexBuffer := fun _ => (0, 0, 0, 0), flushes := [] }

/-- A location lies entirely within the `[0,texSize)` square of its atlas
(as a pixel region: `x .. x+w` by `y .. y+h`). -/
def locInBounds (texSize : ℕ) (l : Loc) : Prop :=
  0 ≤ l.x ∧ 0 ≤ l.y ∧ l.x + l.w ≤ (texSize : ℚ) ∧ l.y + l.h ≤ (texSize : ℚ)

instance (texSize : ℕ) (l : Loc) : Decidable (locInBounds texSize l) := by
  unfold locInBounds; infer_instance

/-- Every atlas except possibly the last one in the list is locked
(collection invariant C2 of the spec). -/
def LockedPrefix (c : AtlasCollection) : Prop :=
  ∀ a ∈ c.atlases.dropLast, a.locked = true

instance (c : AtlasCollection) : Decidable (LockedPrefix c) := by
  unfold LockedPrefix; infer_instance

/-- Scenario S1, atlas level: fresh atlas, `texSize=100`, `texRows=2`. -/
def s1Atlas0 : Atlas := Atlas.create 0 100 2

/-- Scenario S1: result of drawing key A with `bb={w:80,h:50}`. -/
def s1DrawA : DrawResult × Atlas × ℕ := s1Atlas0.draw "A" ⟨80, 50⟩

/-- Scenario S1: the atlas after drawing A. -/
def s1Atlas1 : Atlas := s1DrawA.2.1

/-- Scenario S1: result of then drawing key B with `bb={w:40,h:50}`. -/
def s1DrawB : DrawResult × Atlas × ℕ := s1Atlas1.draw "B" ⟨40, 50⟩

/-- Scenario S1: the atlas after drawing A and B. -/
def s1Atlas2 : Atlas := s1DrawB.2.1

/-- Scenario S1 at the collection level. -/
def s1Coll : AtlasCollection :=
  (((AtlasCollection.create 100 2).draw "A" ⟨80, 50⟩).2.1.draw "B" ⟨40, 50⟩).2.1

/-- Scenario S3: mark A in the S1 state and garbage collect. -/
def s3Coll : AtlasCollection := (s1Coll.markKeyForGC "A").gc

/-- The overflow input: two full-width rows drawn into a two-row atlas. -/
def rowOverflowColl2 : AtlasCollection :=
  (((AtlasCollection.create 100 2).draw "k1" ⟨100, 50⟩).2.1.draw "k2" ⟨100, 50⟩).2.1

/-- The overflow input continued: a third full-width draw is accepted. -/
def rowOverflowColl3 : AtlasCollection := (rowOverflowColl2.draw "k3" ⟨100, 50⟩).2.1

/-- Operation sequence whose `gc` leaves an unlocked atlas in a non-final
position: fill atlas 0, force allocation of atlas 1, mark the only key of
atlas 0, collect. -/
def gcUnlockOps : List CollOp :=
  [CollOp.draw "k1" ⟨60, 100⟩, CollOp.draw "k2" ⟨60, 100⟩,
   CollOp.mark "k1", CollOp.gc]

/-- The collection reached by `gcUnlockOps` from a fresh one-row collection. -/
def gcUnlockColl : AtlasCollection :=
  applyCollOps (AtlasCollection.create 100 1) gcUnlockOps

/-- The atlas used as the concrete `NotEnoughRoom` input: one-row atlas
with its row partly used. -/
def fullRowAtlas : Atlas := ((Atlas.create 0 100 1).draw "k1" ⟨60, 100⟩).2.1

/-- A gc-free operation sequence that allocates a second atlas. -/
def noGcOps : List CollOp :=
  [CollOp.draw "k1" ⟨60, 100⟩, CollOp.draw "k2" ⟨60, 100⟩, CollOp.mark "k1"]

/-- Every entry of a key map points (by id) at an atlas of the list that
stores the key (the per-key half of collection invariant C1). -/
def gcWitnessInv (nm : List (String × ℕ)) (atlases : List Atlas) : Prop :=
  ∀ p ∈ nm, ∃ a ∈ atlases, a.id = p.2 ∧ (lookupKey a.keyToLocation p.1).isSome = true

/-- The pre-gc collection of scenario S3, used as the concrete gc input. -/
def s3PreColl : AtlasCollection := s1Coll.markKeyForGC "A"

/-- C3: scenario S1. On a fresh atlas with `texSize=100`, `texRows=2`
(row height 50), drawing key A with `bb={w:80,h:50}` records
`loc1=(0,0,80,50)` with `loc2.w = 0` and leaves the cursor at `{x:80,row:0}`;
drawing key B with `bb={w:40,h:50}` then wraps, recording
`loc1=(80,0,20,50)` and `loc2=(0,50,20,50)` and leaving the cursor at
`{x:20,row:1}`. -/
theorem atlas_draw_scenario_s1 :
    s1DrawA.1 = DrawResult.ok ⟨0, 0, 80, 50⟩ ⟨80, 0, 0, 50⟩
  ∧ s1Atlas1.getOffsets "A" = some (⟨0, 0, 80, 50⟩, ⟨80, 0, 0, 50⟩)
  ∧ s1Atlas1.freePointer = ⟨80, 0⟩
  ∧ s1DrawB.1 = DrawResult.ok ⟨80, 0, 20, 50⟩ ⟨0, 50, 20, 50⟩
  ∧ s1Atlas2.getOffsets "B" = some (⟨80, 0, 20, 50⟩, ⟨0, 50, 20, 50⟩)
  ∧ s1Atlas2.freePointer = ⟨20, 1⟩ := by
  refine ⟨?_, ?_, ?_, ?_, ?_, ?_⟩ <;> with_unfolding_all decide

/-- C2 counterexample: in scenario S3 the code does not keep B wrapped at
`loc1=(0,0,20,50)`, `loc2=(0,50,20,50)`; no atlas of the post-gc collection
holds B at those locations. -/
theorem gc_scenario_s3_counterexample :
    s3Coll.atlases.length = 1
  ∧ ∀ a ∈ s3Coll.atlases,
      a.getOffsets "B" ≠ some (⟨0, 0, 20, 50⟩, ⟨0, 50, 20, 50⟩) := by
  refine ⟨?_, ?_⟩ <;> with_unfolding_all decide

/-- C2 amended: marking A in the S1 state and running `gc()` yields a
collection whose single atlas contains only key B, re-packed through the
standard draw path as a non-wrapped entry: `getOffsets(B) =
[loc1=(0,0,40,50), loc2=(40,0,0,50)]` (so `loc2.w = 0`), with the cursor at
`{x:40,row:0}`. -/
theorem gc_scenario_s3_amended :
    s3Coll.atlases.length = 1
  ∧ ∀ a ∈ s3Coll.atlases,
      a.getKeys = ["B"]
      ∧ a.getOffsets "B" = some (⟨0, 0, 40, 50⟩, ⟨40, 0, 0, 50⟩)
      ∧ a.freePointer = ⟨40, 0⟩ := by
  refine ⟨?_, ?_⟩ <;> with_unfolding_all decide

/-- C1: the placement invariants fail on the code. With `texSize=100`,
`texRows=2` and three `AtlasCollection.draw` calls of distinct keys with
positive bounding boxes `{w:100,h:50}`, the second draw leaves the single
atlas unlocked with `cursor.row = 2 = texRows` (violating
`0 ≤ cursor.row < texRows` while unlocked), and the third draw is accepted
and records an entry at `y ∈ [100,150)`, outside `[0,texSize)²`
(the source marks the spot with `TODO what if there is no next row???`). -/
theorem atlas_row_overflow_code_bug :
    (∃ a ∈ rowOverflowColl2.atlases,
       a.locked = false ∧ a.texRows = 2 ∧ a.freePointer.row = 2)
  ∧ (∃ a ∈ rowOverflowColl3.atlases, ∃ e ∈ a.keyToLocation,
       e.1 = "k3" ∧ a.texSize = 100 ∧ ¬ locInBounds a.texSize e.2.1) := by
  refine ⟨?_, ?_⟩ <;> with_unfolding_all decide

/-- C5 counterexample: after `gcUnlockOps` (a draw/draw/mark/gc sequence)
the collection has two atlases and the first one is unlocked, so an
unlocked atlas precedes another atlas in the list. -/
theorem locked_prefix_counterexample :
    gcUnlockColl.atlases.length = 2
  ∧ ¬ LockedPrefix gcUnlockColl := by
  refine ⟨?_, ?_⟩ <;> with_unfolding_all decide

/-- C10: `AtlasCollection.draw` on a cache hit returns the owning atlas id
without invoking the paint callback and without modifying any state. -/
theorem collection_draw_cache_hit_pure (c : AtlasCollection) (key : String)
    (bb : BB) (id : ℕ) (h : lookupKey c.styleKeyToAtlas key = some id) :
    c.draw key bb = (id, c, 0) := by
  unfold AtlasCollection.draw
  rw [h]

/-- C10 witness: key A is cached in the S1 collection, and drawing it again
returns atlas 0 with the collection unchanged and zero paint calls. -/
theorem collection_draw_cache_hit_pure_witness :
    lookupKey s1Coll.styleKeyToAtlas "A" = some 0
  ∧ s1Coll.draw "A" ⟨80, 50⟩ = (0, s1Coll, 0) :=
  ⟨by with_unfolding_all decide, collection_draw_cache_hit_pure s1Coll "A" ⟨80, 50⟩ 0 (by with_unfolding_all decide)⟩

/-- C9: when the bounding box needs a new row (`cursor.x + texW > texSize`)
but `cursor.row ≥ texRows - 1`, `Atlas.draw` returns the `NotEnoughRoom`
failure and leaves the atlas (cursor, entries, `needsBuffer`, `locked`)
completely unchanged, never invoking the paint callback. -/
theorem atlas_draw_not_enough_room_atomic (a : Atlas) (key : String) (bb : BB)
    (hlock : a.locked = false)
    (hx : ¬ (a.freePointer.x + (a.getScale bb).texW ≤ (a.texSize : ℚ)))
    (hrow : a.freePointer.row ≥ a.texRows - 1) :
    a.draw key bb = (DrawResult.notEnoughRoom, a, 0) := by
  unfold Atlas.draw
  simp [hlock, hx, hrow]

/-- C9 witness: a one-row atlas whose row holds a 60-wide entry rejects a
second 60-wide entry and is returned unchanged. -/
theorem atlas_draw_not_enough_room_atomic_witness :
    (fullRowAtlas.locked = false
     ∧ ¬ (fullRowAtlas.freePointer.x + (fullRowAtlas.getScale ⟨60, 100⟩).texW
            ≤ (fullRowAtlas.texSize : ℚ))
     ∧ fullRowAtlas.freePointer.row ≥ fullRowAtlas.texRows - 1)
  ∧ fullRowAtlas.draw "k2" ⟨60, 100⟩ = (DrawResult.notEnoughRoom, fullRowAtlas, 0) :=
  ⟨⟨by with_unfolding_all decide, by with_unfolding_all decide, by with_unfolding_all decide⟩,
   atlas_draw_not_enough_room_atomic fullRowAtlas "k2" ⟨60, 100⟩
     (by with_unfolding_all decide) (by with_unfolding_all decide) (by with_unfolding_all decide)⟩

theorem getAtlasIndexForBatch_max (m : AtlasManager) (a : ℕ) :
    ((m.getAtlasIndexForBatch a).2).maxAtlasesPerBatch = m.maxAtlasesPerBatch := by
  unfold AtlasManager.getAtlasIndexForBatch
  cases indexOfAtlas m.batchAtlases a with
  | some i => rfl
  | none => dsimp only; split <;> rfl

theorem getAtlasIndexForBatch_len (m : AtlasManager) (a : ℕ)
    (h : m.batchAtlases.length ≤ m.maxAtlasesPerBatch) :
    ((m.getAtlasIndexForBatch a).2).batchAtlases.length ≤ m.maxAtlasesPerBatch := by
  unfold AtlasManager.getAtlasIndexForBatch
  cases indexOfAtlas m.batchAtlases a with
  | some i => exact h
  | none =>
    dsimp only
    split
    · exact h
    · rename_i hfull
      simp only [List.length_append, List.length_singleton]
      omega

theorem applyBatchCalls_len (calls : List ℕ) (m : AtlasManager)
    (h : m.batchAtlases.length ≤ m.maxAtlasesPerBatch) :
    (applyBatchCalls m calls).batchAtlases.length ≤ m.maxAtlasesPerBatch := by
  induction calls generalizing m with
  | nil => exact h
  | cons a rest ih =>
    have hstep : applyBatchCalls m (a :: rest) =
        applyBatchCalls (m.getAtlasIndexForBatch a).2 rest := rfl
    rw [hstep]
    have hmax := getAtlasIndexForBatch_max m a
    have hlen := getAtlasIndexForBatch_len m a h
    have := ih (m.getAtlasIndexForBatch a).2 (by rw [hmax]; exact hlen)
    rwa [hmax] at this

/-- C6: batch assembly respects the atlas cap. After `startBatch` and any
sequence of `getAtlasIndexForBatch` calls, `batchAtlases` never exceeds
`maxAtlasesPerBatch`; a call returns the atlas's existing index if present,
appends and returns the new index if absent with room, and returns
`undefined` (`none`) exactly when the batch is full and the atlas absent. -/
theorem batch_cap_and_index_spec (m : AtlasManager) (calls : List ℕ) (a : ℕ) :
    (applyBatchCalls m.startBatch calls).batchAtlases.length ≤ m.maxAtlasesPerBatch
  ∧ (∀ i, indexOfAtlas m.batchAtlases a = some i →
      m.getAtlasIndexForBatch a = (some i, m))
  ∧ (indexOfAtlas m.batchAtlases a = none →
      m.batchAtlases.length < m.maxAtlasesPerBatch →
      m.getAtlasIndexForBatch a =
        (some m.batchAtlases.length,
         { m with batchAtlases := m.batchAtlases ++ [a] }))
  ∧ ((m.getAtlasIndexForBatch a).1 = none ↔
      indexOfAtlas m.batchAtlases a = none ∧
      m.batchAtlases.length = m.maxAtlasesPerBatch) := by
  refine ⟨?_, ?_, ?_, ?_⟩
  · exact applyBatchCalls_len calls m.startBatch (by simp [AtlasManager.startBatch])
  · intro i hi
    unfold AtlasManager.getAtlasIndexForBatch
    rw [hi]
  · intro habs hroom
    unfold AtlasManager.getAtlasIndexForBatch
    rw [habs]
    dsimp only
    rw [if_neg (by omega)]
  · unfold AtlasManager.getAtlasIndexForBatch
    cases hidx : indexOfAtlas m.batchAtlases a with
    | some i => simp
    | none =>
      dsimp only
      split
      · simpa
      · simpa

/-- C6 witness: with cap 2 and one atlas batched, adding a new atlas
appends it at index 1. -/
theorem batch_cap_and_index_spec_witness :
    (AtlasManager.mk 2 [3]).getAtlasIndexForBatch 5 =
      (some 1, AtlasManager.mk 2 [3, 5]) :=
  (batch_cap_and_index_spec (AtlasManager.mk 2 [3]) [] 5).2.2.1
    (by with_unfolding_all decide) (by with_unfolding_all decide)

theorem applyEdgeOp_maxInstances (d : EdgeDrawing) (op : EdgeOp) :
    (applyEdgeOp d op).maxInstances = d.maxInstances := by
  cases op with
  | startBatch => rfl
  | draw n =>
    simp only [applyEdgeOp, EdgeDrawing.draw, EdgeDrawing.endBatch]
    split <;> [skip; rfl]
    split <;> rfl
  | endBatch =>
    simp only [applyEdgeOp, EdgeDrawing.endBatch]
    split <;> rfl

theorem applyEdgeOp_count_le (d : EdgeDrawing) (op : EdgeOp)
    (h : d.instanceCount ≤ d.maxInstances) :
    (applyEdgeOp d op).instanceCount ≤ d.maxInstances := by
  cases op with
  | startBatch => simp [applyEdgeOp, EdgeDrawing.startBatch]
  | draw n =>
    simp only [applyEdgeOp, EdgeDrawing.draw, EdgeDrawing.endBatch]
    split
    · split
      · rename_i hge hzero
        omega
      · simp
    · rename_i hlt
      simp only at hlt ⊢
      omega
  | endBatch =>
    simp only [applyEdgeOp, EdgeDrawing.endBatch]
    split
    · exact h
    · simp

theorem applyEdgeOps_count_le (ops : List EdgeOp) (d : EdgeDrawing)
    (h : d.instanceCount ≤ d.maxInstances) :
    (applyEdgeOps d ops).instanceCount ≤ d.maxInstances := by
  induction ops generalizing d with
  | nil => exact h
  | cons op rest ih =>
    have hstep : applyEdgeOps d (op :: rest) = applyEdgeOps (applyEdgeOp d op) rest := rfl
    rw [hstep]
    have hmax := applyEdgeOp_maxInstances d op
    have hcount := applyEdgeOp_count_le d op h
    have := ih (applyEdgeOp d op) (by rw [hmax]; exact hcount)
    rwa [hmax] at this

/-- C7: `endBatch` performs no flush when `instanceCount = 0`; reaching
`maxInstances` inside `draw` triggers an implicit flush resetting the count
to 0; with `maxInstances = 2`, three `draw` calls and an explicit
`endBatch` produce exactly two flushes (of 2 instances after the second
draw, of 1 instance at the explicit `endBatch`); and the instance count
never exceeds `maxInstances` across any operation sequence. -/
theorem edge_batch_flush_spec (d : EdgeDrawing) (n : ℕ) (ops : List EdgeOp) :
    (d.instanceCount = 0 → d.endBatch = d)
  ∧ (d.instanceCount + 1 ≥ d.maxInstances →
      (d.draw n).instanceCount = 0
      ∧ (d.draw n).flushes = d.flushes ++ [d.instanceCount + 1])
  ∧ (applyEdgeOps d.startBatch ops).instanceCount ≤ d.maxInstances
  ∧ (applyEdgeOps (edgeDrawing0 2)
      [EdgeOp.startBatch, EdgeOp.draw 0]).flushes = []
  ∧ (applyEdgeOps (edgeDrawing0 2)
      [EdgeOp.startBatch, EdgeOp.draw 0, EdgeOp.draw 1]).flushes = [2]
  ∧ (applyEdgeOps (edgeDrawing0 2)
      [EdgeOp.startBatch, EdgeOp.draw 0, EdgeOp.draw 1, EdgeOp.draw 2]).flushes = [2]
  ∧ (applyEdgeOps (edgeDrawing0 2)
      [EdgeOp.startBatch, EdgeOp.draw 0, EdgeOp.draw 1, EdgeOp.draw 2,
       EdgeOp.endBatch]).flushes = [2, 1] := by
  refine ⟨?_, ?_, ?_, ?_, ?_, ?_, ?_⟩
  · intro h0
    unfold EdgeDrawing.endBatch
    rw [if_pos h0]
  · intro hge
    constructor
    · simp only [EdgeDrawing.draw, EdgeDrawing.endBatch]
      rw [if_pos (by simpa using hge)]
      simp
    · simp only [EdgeDrawing.draw, EdgeDrawing.endBatch]
      rw [if_pos (by simpa using hge)]
      simp
  · exact applyEdgeOps_count_le ops d.startBatch (by simp [EdgeDrawing.startBatch])
  · rfl
  · rfl
  · rfl
  · rfl

/-- C7 witness: a fresh batcher with cap 2 has count 0 and its `endBatch`
is a no-op. -/
theorem edge_batch_flush_spec_witness :
    (edgeDrawing0 2).instanceCount = 0
  ∧ (edgeDrawing0 2).endBatch = edgeDrawing0 2 :=
  ⟨rfl, (edge_batch_flush_spec (edgeDrawing0 2) 0 []).1 rfl⟩

theorem toInt32_byte (n : ℕ) (hn : n < 2 ^ 32) (s : ℕ)
    (hs : s = 0 ∨ s = 8 ∨ s = 16 ∨ s = 24) :
    toInt32 n / 2 ^ s % 256 = ((n / 2 ^ s % 256 : ℕ) : ℤ) := by
  have hmod : n % 2 ^ 32 = n := Nat.mod_eq_of_lt hn
  unfold toInt32
  rcases hs with rfl | rfl | rfl | rfl <;> simp only [hmod] <;> split <;> omega

theorem packChannel_eq (n : ℕ) (hn : n < 2 ^ 32) (s : ℕ)
    (hs : s = 0 ∨ s = 8 ∨ s = 16 ∨ s = 24) :
    packChannel n s = ((n / 2 ^ s % 256 : ℕ) : ℚ) / 255 := by
  unfold packChannel
  rw [toInt32_byte n hn s hs]
  simp only [Int.cast_natCast]

/-- C8: for every element index below `2^32`, `EdgeDrawing.draw` writes the
four bytes of the index into the instance's index attribute as normalized
channels: byte `k` of the index divided by 255 in channel `k`,
least-significant byte first. -/
theorem edge_index_packing (d : EdgeDrawing) (n : ℕ) (h : n < 2 ^ 32) :
    (d.draw n).indexBuffer d.instanceCount =
      (((n / 2 ^ 0 % 256 : ℕ) : ℚ) / 255, ((n / 2 ^ 8 % 256 : ℕ) : ℚ) / 255,
       ((n / 2 ^ 16 % 256 : ℕ) : ℚ) / 255, ((n / 2 ^ 24 % 256 : ℕ) : ℚ) / 255) := by
  have hbuf : (d.draw n).indexBuffer =
      fun j => if j = d.instanceCount then packIndex n else d.indexBuffer j := by
    simp only [EdgeDrawing.draw, EdgeDrawing.endBatch]
    split <;> [skip; rfl]
    split <;> rfl
  rw [hbuf]
  have hbeta : (fun j => if j = d.instanceCount then packIndex n else d.indexBuffer j)
      d.instanceCount = packIndex n := by simp
  rw [hbeta]
  unfold packIndex
  rw [packChannel_eq n h 0 (Or.inl rfl), packChannel_eq n h 8 (Or.inr (Or.inl rfl)),
      packChannel_eq n h 16 (Or.inr (Or.inr (Or.inl rfl))),
      packChannel_eq n h 24 (Or.inr (Or.inr (Or.inr rfl)))]

/-- C8 witness: element index `0x01020304` packs to
`(4/255, 3/255, 2/255, 1/255)`. -/
theorem edge_index_packing_witness :
    (0x01020304 : ℕ) < 2 ^ 32
  ∧ ((edgeDrawing0 2).draw 0x01020304).indexBuffer 0 =
      ((4 : ℚ) / 255, (3 : ℚ) / 255, (2 : ℚ) / 255, (1 : ℚ) / 255) := by
  refine ⟨by norm_num, ?_⟩
  have h := edge_index_packing (edgeDrawing0 2) 0x01020304 (by norm_num)
  have h2 : (edgeDrawing0 2).instanceCount = 0 := rfl
  rw [h2] at h
  rw [h]
  norm_num [Prod.ext_iff]

theorem lockedPrefix_draw (c : AtlasCollection) (key : String) (bb : BB)
    (h : LockedPrefix c) : LockedPrefix (c.draw key bb).2.1 := by
  unfold AtlasCollection.draw
  cases hl : lookupKey c.styleKeyToAtlas key with
  | some id => exact h
  | none =>
    cases hlast : c.atlases.getLast? with
    | none =>
      dsimp only
      intro a ha
      simp at ha
    | some last =>
      dsimp only
      by_cases hfit : last.canFit bb = true
      · rw [if_pos hfit]
        intro a ha
        rw [List.dropLast_concat] at ha
        exact h a ha
      · rw [if_neg hfit]
        intro a ha
        have hsplit : c.atlases.dropLast ++ [last.lock, ((c.createAtlas).draw key bb).2.1]
            = (c.atlases.dropLast ++ [last.lock]) ++ [((c.createAtlas).draw key bb).2.1] := by
          simp
        rw [hsplit, List.dropLast_concat] at ha
        rcases List.mem_append.mp ha with h1 | h1
        · exact h a h1
        · have : a = last.lock := by simpa using h1
          rw [this]
          rfl

theorem lockedPrefix_applyCollOp (c : AtlasCollection) (op : CollOp)
    (hop : op ≠ CollOp.gc) (h : LockedPrefix c) :
    LockedPrefix (applyCollOp c op) := by
  cases op with
  | draw k bb => exact lockedPrefix_draw c k bb h
  | mark k => exact h
  | gc => exact absurd rfl hop

/-- C5 amended: in every state reachable from a fresh collection by
sequences of `draw` and `markKeyForGC` (no `gc`), at most the last atlas is
unlocked and every earlier atlas in the list is locked; `gc` can break this
invariant (see the counterexample), so it does not hold for arbitrary
sequences that include `gc`. -/
theorem locked_prefix_no_gc (texSize texRows : ℕ) (ops : List CollOp)
    (hops : CollOp.gc ∉ ops) :
    LockedPrefix (applyCollOps (AtlasCollection.create texSize texRows) ops) := by
  have base : LockedPrefix (AtlasCollection.create texSize texRows) := by
    intro a ha
    simp [AtlasCollection.create] at ha
  suffices hgen : ∀ (l : List CollOp) (c : AtlasCollection), CollOp.gc ∉ l →
      LockedPrefix c → LockedPrefix (applyCollOps c l) from hgen ops _ hops base
  intro l
  induction l with
  | nil => intro c _ hc; exact hc
  | cons op rest ih =>
    intro c hnot hc
    have h1 : op ≠ CollOp.gc := fun he => hnot (he ▸ List.mem_cons_self _ _)
    have h2 : CollOp.gc ∉ rest := fun he => hnot (List.mem_cons_of_mem _ he)
    exact ih (applyCollOp c op) h2 (lockedPrefix_applyCollOp c op h1 hc)

/-- C5 amended witness: the gc-free prefix of the counterexample sequence
keeps every non-final atlas locked. -/
theorem locked_prefix_no_gc_witness :
    CollOp.gc ∉ noGcOps
  ∧ LockedPrefix (applyCollOps (AtlasCollection.create 100 1) noGcOps) :=
  ⟨by with_unfolding_all decide,
   locked_prefix_no_gc 100 1 noGcOps (by with_unfolding_all decide)⟩

theorem getScale_texW_le (a : Atlas) (bb : BB) :
    (a.getScale bb).texW ≤ (a.texSize : ℚ) := by
  unfold Atlas.getScale
  dsimp only
  split
  · rename_i hgt
    have hw : bb.w ≠ 0 := by
      intro h0
      rw [h0, zero_mul] at hgt
      exact absurd hgt (not_lt.mpr (by positivity))
    have : bb.w * ((a.texSize : ℚ) / bb.w) = (a.texSize : ℚ) := by
      field_simp
    rw [this]
  · rename_i hle
    exact not_lt.mp hle

theorem draw_preserves_id (a : Atlas) (key : String) (bb : BB) :
    (a.draw key bb).2.1.id = a.id := by
  unfold Atlas.draw
  dsimp only
  split_ifs <;> rfl

theorem draw_keys_monotone (a : Atlas) (key : String) (bb : BB) (k : String)
    (h : (lookupKey a.keyToLocation k).isSome = true) :
    (lookupKey (a.draw key bb).2.1.keyToLocation k).isSome = true := by
  unfold Atlas.draw
  dsimp only
  split_ifs <;>
    first
      | exact h
      | exact isSome_lookupKey_setKey_of_isSome _ _ _ _ h

theorem draw_origin_succeeds (a : Atlas) (key : String) (bb : BB)
    (hlock : a.locked = false) (hfp : a.freePointer = ⟨0, 0⟩) :
    (lookupKey (a.draw key bb).2.1.keyToLocation key).isSome = true := by
  unfold Atlas.draw
  rw [if_neg (by simp [hlock])]
  dsimp only
  rw [if_pos (by rw [hfp]; simpa using getScale_texW_le a bb)]
  simp [lookupKey_setKey_self]

theorem draw_canFit_succeeds (a : Atlas) (key : String) (bb : BB)
    (hfit : a.canFit bb = true) :
    (lookupKey (a.draw key bb).2.1.keyToLocation key).isSome = true := by
  unfold Atlas.canFit at hfit
  by_cases hlock : a.locked = true
  · rw [if_pos hlock] at hfit
    cases hfit
  · rw [if_neg hlock] at hfit
    unfold Atlas.draw
    rw [if_neg hlock]
    dsimp only at hfit ⊢
    by_cases h1 : a.freePointer.x + (a.getScale bb).texW ≤ ((a.texSize : ℕ) : ℚ)
    · rw [if_pos h1]
      simp [lookupKey_setKey_self]
    · rw [if_neg h1]
      rw [if_pos (not_le.mp h1)] at hfit
      have hrow : a.freePointer.row < a.texRows - 1 := of_decide_eq_true hfit
      rw [if_neg (by omega)]
      by_cases h2 : a.freePointer.x = ((a.texSize : ℕ) : ℚ)
      · rw [if_pos h2]
        simp [lookupKey_setKey_self]
      · rw [if_neg h2]
        by_cases h3 : a.enableWrapping = true
        · rw [if_pos h3]
          simp [lookupKey_setKey_self]
        · rw [if_neg h3]
          simp [lookupKey_setKey_self]

theorem copy_preserves_id (key : String) (oldAtlas newAtlas : Atlas) :
    (copyTextureToNewAtlas key oldAtlas newAtlas).id = newAtlas.id := by
  unfold copyTextureToNewAtlas
  cases lookupKey oldAtlas.keyToLocation key with
  | none => rfl
  | some s =>
    dsimp only
    split <;> exact draw_preserves_id _ _ _

theorem copy_keys_monotone (key : String) (oldAtlas newAtlas : Atlas) (k : String)
    (h : (lookupKey newAtlas.keyToLocation k).isSome = true) :
    (lookupKey (copyTextureToNewAtlas key oldAtlas newAtlas).keyToLocation k).isSome = true := by
  unfold copyTextureToNewAtlas
  cases lookupKey oldAtlas.keyToLocation key with
  | none => exact h
  | some s =>
    dsimp only
    split <;> exact draw_keys_monotone _ _ _ _ h

theorem copy_succeeds_of_canFit (key : String) (oldAtlas newAtlas : Atlas)
    (s : Loc × Loc) (hs : lookupKey oldAtlas.keyToLocation key = some s)
    (hfit : newAtlas.canFit ⟨s.1.w + s.2.w, s.1.h⟩ = true) :
    (lookupKey (copyTextureToNewAtlas key oldAtlas newAtlas).keyToLocation key).isSome = true := by
  unfold copyTextureToNewAtlas
  rw [hs]
  dsimp only
  split
  · rename_i hzero
    have : (⟨s.1.w, s.1.h⟩ : BB) = ⟨s.1.w + s.2.w, s.1.h⟩ := by
      rw [hzero, add_zero]
    rw [this]
    exact draw_canFit_succeeds _ _ _ hfit
  · exact draw_canFit_succeeds _ _ _ hfit

theorem copy_succeeds_fresh (key : String) (oldAtlas : Atlas) (id texSize texRows : ℕ) :
    (lookupKey (copyTextureToNewAtlas key oldAtlas
        (Atlas.create id texSize texRows)).keyToLocation key).isSome = true
    ∨ lookupKey oldAtlas.keyToLocation key = none := by
  unfold copyTextureToNewAtlas
  cases hl : lookupKey oldAtlas.keyToLocation key with
  | none => exact Or.inr rfl
  | some s =>
    left
    dsimp only
    split <;> exact draw_origin_succeeds _ _ _ rfl rfl

theorem resolveItems_append (cur : Option Atlas) (l1 l2 : List GItem) :
    resolveItems cur (l1 ++ l2) = resolveItems cur l1 ++ resolveItems cur l2 := by
  induction l1 with
  | nil => rfl
  | cons it rest ih =>
    cases it <;> simp [resolveItems, ih]

theorem mem_resolveItems_of_fixed (cur : Option Atlas) (l : List GItem) (a : Atlas)
    (h : GItem.fixed a ∈ l) : a ∈ resolveItems cur l := by
  induction l with
  | nil => cases h
  | cons it rest ih =>
    cases it with
    | fixed b =>
      rcases List.mem_cons.mp h with h1 | h1
      · rw [GItem.fixed.injEq] at h1
        rw [h1]
        exact List.mem_cons_self _ _
      · exact List.mem_cons_of_mem _ (ih h1)
    | slot =>
      rcases List.mem_cons.mp h with h1 | h1
      · cases h1
      · exact List.mem_cons_of_mem _ (ih h1)

theorem mem_resolveItems_of_slot (c : Atlas) (l : List GItem)
    (h : GItem.slot ∈ l) : c ∈ resolveItems (some c) l := by
  induction l with
  | nil => cases h
  | cons it rest ih =>
    cases it with
    | fixed b =>
      rcases List.mem_cons.mp h with h1 | h1
      · cases h1
      · exact List.mem_cons_of_mem _ (ih h1)
    | slot => exact List.mem_cons_self _ _

theorem mem_resolveItems_cases (c : Atlas) (l : List GItem) (a : Atlas)
    (h : a ∈ resolveItems (some c) l) :
    GItem.fixed a ∈ l ∨ (GItem.slot ∈ l ∧ a = c) := by
  induction l with
  | nil => cases h
  | cons it rest ih =>
    cases it with
    | fixed b =>
      rcases List.mem_cons.mp h with h1 | h1
      · left
        rw [h1]
        exact List.mem_cons_self _ _
      · rcases ih h1 with h2 | ⟨h2, h3⟩
        · exact Or.inl (List.mem_cons_of_mem _ h2)
        · exact Or.inr ⟨List.mem_cons_of_mem _ h2, h3⟩
    | slot =>
      rcases List.mem_cons.mp h with h1 | h1
      · exact Or.inr ⟨List.mem_cons_self _ _, by simpa using h1⟩
      · rcases ih h1 with h2 | ⟨h2, h3⟩
        · exact Or.inl (List.mem_cons_of_mem _ h2)
        · exact Or.inr ⟨List.mem_cons_of_mem _ h2, h3⟩

theorem resolveItems_noSlot (l : List GItem) (h : GItem.slot ∉ l)
    (x y : Option Atlas) : resolveItems x l = resolveItems y l := by
  induction l with
  | nil => rfl
  | cons it rest ih =>
    cases it with
    | fixed b =>
      have : GItem.slot ∉ rest := fun hr => h (List.mem_cons_of_mem _ hr)
      simp [resolveItems, ih this]
    | slot => exact absurd (List.mem_cons_self _ _) h

theorem count_fillSlot (l : List GItem) (b : Atlas)
    (h : l.count GItem.slot = 1) : (fillSlot l b).count GItem.slot = 0 := by
  induction l with
  | nil => simp [fillSlot]
  | cons it rest ih =>
    cases it with
    | fixed a =>
      rw [List.count_cons_of_ne (by simp)] at h
      simpa [fillSlot, List.count_cons_of_ne (show (GItem.fixed a : GItem) ≠ GItem.slot by simp)]
        using ih h
    | slot =>
      rw [List.count_cons_self] at h
      have : rest.count GItem.slot = 0 := by omega
      simpa [fillSlot, List.count_cons_of_ne
        (show (GItem.fixed b : GItem) ≠ GItem.slot by simp)] using this

theorem mem_fixed_fillSlot (l : List GItem) (b a : Atlas)
    (h : GItem.fixed a ∈ l) : GItem.fixed a ∈ fillSlot l b := by
  induction l with
  | nil => cases h
  | cons it rest ih =>
    cases it with
    | fixed x =>
      rcases List.mem_cons.mp h with h1 | h1
      · rw [h1]; exact List.mem_cons_self _ _
      · exact List.mem_cons_of_mem _ (ih h1)
    | slot =>
      rcases List.mem_cons.mp h with h1 | h1
      · cases h1
      · exact List.mem_cons_of_mem _ h1

theorem slot_fixed_fillSlot (l : List GItem) (b : Atlas)
    (h : GItem.slot ∈ l) : GItem.fixed b ∈ fillSlot l b := by
  induction l with
  | nil => cases h
  | cons it rest ih =>
    cases it with
    | fixed x =>
      rcases List.mem_cons.mp h with h1 | h1
      · cases h1
      · exact List.mem_cons_of_mem _ (ih h1)
    | slot => exact List.mem_cons_self _ _

theorem lookup_foldl_setKey (id0 : ℕ) (keys : List String)
    (nm : List (String × ℕ)) (k : String) :
    (lookupKey (keys.foldl (fun m x => setKey m x id0) nm) k).isSome = true ↔
      (lookupKey nm k).isSome = true ∨ k ∈ keys := by
  induction keys generalizing nm with
  | nil => simp
  | cons k0 rest ih =>
    have hstep : (k0 :: rest).foldl (fun m x => setKey m x id0) nm
        = rest.foldl (fun m x => setKey m x id0) (setKey nm k0 id0) := rfl
    rw [hstep, ih]
    rw [isSome_lookupKey_setKey]
    constructor
    · rintro ((rfl | h) | h)
      · exact Or.inr (List.mem_cons_self _ _)
      · exact Or.inl h
      · exact Or.inr (List.mem_cons_of_mem _ h)
    · rintro (h | h)
      · exact Or.inl (Or.inr h)
      · rcases List.mem_cons.mp h with rfl | h1
        · exact Or.inl (Or.inl rfl)
        · exact Or.inr h1

theorem mem_foldl_setKey (id0 : ℕ) (keys : List String)
    (nm : List (String × ℕ)) (p : String × ℕ)
    (h : p ∈ keys.foldl (fun m x => setKey m x id0) nm) :
    p ∈ nm ∨ (p.1 ∈ keys ∧ p.2 = id0) := by
  induction keys generalizing nm with
  | nil => exact Or.inl h
  | cons k0 rest ih =>
    have hstep : (k0 :: rest).foldl (fun m x => setKey m x id0) nm
        = rest.foldl (fun m x => setKey m x id0) (setKey nm k0 id0) := rfl
    rw [hstep] at h
    rcases ih (setKey nm k0 id0) h with h1 | ⟨h1, h2⟩
    · rcases mem_setKey nm k0 id0 p h1 with h2 | h2
      · exact Or.inl h2
      · right
        rw [h2]
        exact ⟨List.mem_cons_self _ _, rfl⟩
    · exact Or.inr ⟨List.mem_cons_of_mem _ h1, h2⟩

theorem copyKeysLoop_lookup (ts tr : ℕ) (old : Atlas) (collect : List String)
    (keys : List String) :
    ∀ (items : List GItem) (cur : Atlas) (nm : List (String × ℕ)) (nid : ℕ) (k : String),
    (lookupKey (copyKeysLoop ts tr old collect keys items cur nm nid).2.2.1 k).isSome = true ↔
      ((lookupKey nm k).isSome = true ∨
       (k ∈ keys ∧ collect.contains k = false ∧
        (lookupKey old.keyToLocation k).isSome = true)) := by
  induction keys with
  | nil =>
    intro items cur nm nid k
    simp [copyKeysLoop]
  | cons key rest ih =>
    intro items cur nm nid k
    by_cases hc : collect.contains key = true
    · have hstep : copyKeysLoop ts tr old collect (key :: rest) items cur nm nid
          = copyKeysLoop ts tr old collect rest items cur nm nid := by
        have hmem : key ∈ collect := List.elem_iff.mp hc
        simp [copyKeysLoop, hmem]
      rw [hstep, ih items cur nm nid k]
      constructor
      · rintro (h | ⟨h1, h2, h3⟩)
        · exact Or.inl h
        · exact Or.inr ⟨List.mem_cons_of_mem _ h1, h2, h3⟩
      · rintro (h | ⟨h1, h2, h3⟩)
        · exact Or.inl h
        · rcases List.mem_cons.mp h1 with rfl | h4
          · rw [hc] at h2
            cases h2
          · exact Or.inr ⟨h4, h2, h3⟩
    · have hcf : collect.contains key = false := by
        cases h : collect.contains key
        · rfl
        · exact absurd h hc
      cases hl : lookupKey old.keyToLocation key with
      | none =>
        have hstep : copyKeysLoop ts tr old collect (key :: rest) items cur nm nid
            = copyKeysLoop ts tr old collect rest items cur nm nid := by
          have hnotmem : key ∉ collect := fun hm => hc (List.elem_iff.mpr hm)
          simp [copyKeysLoop, hnotmem, hl]
        rw [hstep, ih items cur nm nid k]
        constructor
        · rintro (h | ⟨h1, h2, h3⟩)
          · exact Or.inl h
          · exact Or.inr ⟨List.mem_cons_of_mem _ h1, h2, h3⟩
        · rintro (h | ⟨h1, h2, h3⟩)
          · exact Or.inl h
          · rcases List.mem_cons.mp h1 with rfl | h4
            · rw [hl] at h3
              cases h3
            · exact Or.inr ⟨h4, h2, h3⟩
      | some s =>
        have hmain : ∀ (X : ℕ) (items2 : List GItem) (cur2 : Atlas) (nid2 : ℕ),
            (lookupKey (copyKeysLoop ts tr old collect rest items2 cur2
                (setKey nm key X) nid2).2.2.1 k).isSome = true ↔
              ((lookupKey nm k).isSome = true ∨
               (k ∈ key :: rest ∧ collect.contains k = false ∧
                (lookupKey old.keyToLocation k).isSome = true)) := by
          intro X items2 cur2 nid2
          rw [ih items2 cur2 (setKey nm key X) nid2 k, isSome_lookupKey_setKey]
          constructor
          · rintro ((rfl | h) | ⟨h1, h2, h3⟩)
            · exact Or.inr ⟨List.mem_cons_self _ _, hcf, by rw [hl]; rfl⟩
            · exact Or.inl h
            · exact Or.inr ⟨List.mem_cons_of_mem _ h1, h2, h3⟩
          · rintro (h | ⟨h1, h2, h3⟩)
            · exact Or.inl (Or.inr h)
            · rcases List.mem_cons.mp h1 with rfl | h4
              · exact Or.inl (Or.inl rfl)
              · exact Or.inr ⟨h4, h2, h3⟩
        by_cases hfit : cur.canFit ⟨s.1.w + s.2.w, s.1.h⟩ = true
        · have hstep : copyKeysLoop ts tr old collect (key :: rest) items cur nm nid
              = copyKeysLoop ts tr old collect rest items
                  (copyTextureToNewAtlas key old cur)
                  (setKey nm key (copyTextureToNewAtlas key old cur).id) nid := by
            have hnotmem : key ∉ collect := fun hm => hc (List.elem_iff.mpr hm)
            simp [copyKeysLoop, hnotmem, hl, hfit]
          rw [hstep]
          exact hmain _ _ _ _
        · have hstep : copyKeysLoop ts tr old collect (key :: rest) items cur nm nid
              = copyKeysLoop ts tr old collect rest
                  (fillSlot items cur.lock ++ [GItem.slot])
                  (copyTextureToNewAtlas key old (Atlas.create nid ts tr))
                  (setKey nm key
                    (copyTextureToNewAtlas key old (Atlas.create nid ts tr)).id)
                  (nid + 1) := by
            have hnotmem : key ∉ collect := fun hm => hc (List.elem_iff.mpr hm)
            simp [copyKeysLoop, hnotmem, hl, hfit]
          rw [hstep]
          exact hmain _ _ _ _

theorem copyKeysLoop_inv (ts tr : ℕ) (old : Atlas) (collect : List String)
    (keys : List String) :
    ∀ (items : List GItem) (cur : Atlas) (nm : List (String × ℕ)) (nid : ℕ),
    items.count GItem.slot = 1 →
    gcWitnessInv nm (resolveItems (some cur) items) →
    (copyKeysLoop ts tr old collect keys items cur nm nid).1.count GItem.slot = 1 ∧
    gcWitnessInv (copyKeysLoop ts tr old collect keys items cur nm nid).2.2.1
      (resolveItems (some (copyKeysLoop ts tr old collect keys items cur nm nid).2.1)
        (copyKeysLoop ts tr old collect keys items cur nm nid).1) := by
  induction keys with
  | nil =>
    intro items cur nm nid hcount hinv
    exact ⟨hcount, hinv⟩
  | cons key rest ih =>
    intro items cur nm nid hcount hinv
    have hslotmem : GItem.slot ∈ items := by
      by_contra hnot
      rw [List.count_eq_zero_of_not_mem hnot] at hcount
      exact absurd hcount (by norm_num)
    by_cases hc : collect.contains key = true
    · have hstep : copyKeysLoop ts tr old collect (key :: rest) items cur nm nid
          = copyKeysLoop ts tr old collect rest items cur nm nid := by
        have hmem : key ∈ collect := List.elem_iff.mp hc
        simp [copyKeysLoop, hmem]
      rw [hstep]
      exact ih items cur nm nid hcount hinv
    · have hcf : collect.contains key = false := by
        cases h : collect.contains key
        · rfl
        · exact absurd h hc
      cases hl : lookupKey old.keyToLocation key with
      | none =>
        have hstep : copyKeysLoop ts tr old collect (key :: rest) items cur nm nid
            = copyKeysLoop ts tr old collect rest items cur nm nid := by
          have hnotmem : key ∉ collect := fun hm => hc (List.elem_iff.mpr hm)
          simp [copyKeysLoop, hnotmem, hl]
        rw [hstep]
        exact ih items cur nm nid hcount hinv
      | some s =>
        by_cases hfit : cur.canFit ⟨s.1.w + s.2.w, s.1.h⟩ = true
        · have hstep : copyKeysLoop ts tr old collect (key :: rest) items cur nm nid
              = copyKeysLoop ts tr old collect rest items
                  (copyTextureToNewAtlas key old cur)
                  (setKey nm key (copyTextureToNewAtlas key old cur).id) nid := by
            have hnotmem : key ∉ collect := fun hm => hc (List.elem_iff.mpr hm)
            simp [copyKeysLoop, hnotmem, hl, hfit]
          rw [hstep]
          refine ih _ _ _ _ hcount ?_
          intro p hp
          rcases mem_setKey nm key _ p hp with hpnm | rfl
          · obtain ⟨a, ha, haid, hak⟩ := hinv p hpnm
            rcases mem_resolveItems_cases cur items a ha with hfix | ⟨_, rfl⟩
            · exact ⟨a, mem_resolveItems_of_fixed _ _ _ hfix, haid, hak⟩
            · refine ⟨copyTextureToNewAtlas key old a,
                mem_resolveItems_of_slot _ _ hslotmem, ?_, ?_⟩
              · rw [copy_preserves_id]
                exact haid
              · exact copy_keys_monotone _ _ _ _ hak
          · refine ⟨copyTextureToNewAtlas key old cur,
              mem_resolveItems_of_slot _ _ hslotmem, rfl, ?_⟩
            exact copy_succeeds_of_canFit key old cur s hl hfit
        · have hstep : copyKeysLoop ts tr old collect (key :: rest) items cur nm nid
              = copyKeysLoop ts tr old collect rest
                  (fillSlot items cur.lock ++ [GItem.slot])
                  (copyTextureToNewAtlas key old (Atlas.create nid ts tr))
                  (setKey nm key
                    (copyTextureToNewAtlas key old (Atlas.create nid ts tr)).id)
                  (nid + 1) := by
            have hnotmem : key ∉ collect := fun hm => hc (List.elem_iff.mpr hm)
            simp [copyKeysLoop, hnotmem, hl, hfit]
          rw [hstep]
          have hcount2 : (fillSlot items cur.lock ++ [GItem.slot]).count GItem.slot = 1 := by
            rw [List.count_append, count_fillSlot items cur.lock hcount]
            simp
          refine ih _ _ _ _ hcount2 ?_
          intro p hp
          have hresolve : resolveItems
              (some (copyTextureToNewAtlas key old (Atlas.create nid ts tr)))
              (fillSlot items cur.lock ++ [GItem.slot])
            = resolveItems (some (copyTextureToNewAtlas key old (Atlas.create nid ts tr)))
                (fillSlot items cur.lock)
              ++ [copyTextureToNewAtlas key old (Atlas.create nid ts tr)] := by
            rw [resolveItems_append]
            rfl
          rw [hresolve]
          rcases mem_setKey nm key _ p hp with hpnm | rfl
          · obtain ⟨a, ha, haid, hak⟩ := hinv p hpnm
            rcases mem_resolveItems_cases cur items a ha with hfix | ⟨_, rfl⟩
            · refine ⟨a, List.mem_append_left _
                (mem_resolveItems_of_fixed _ _ _ (mem_fixed_fillSlot _ _ _ hfix)), haid, hak⟩
            · refine ⟨a.lock, List.mem_append_left _
                (mem_resolveItems_of_fixed _ _ _ (slot_fixed_fillSlot _ _ hslotmem)), ?_, ?_⟩
              · exact haid
              · exact hak
          · refine ⟨copyTextureToNewAtlas key old (Atlas.create nid ts tr),
              List.mem_append_right _ (List.mem_singleton.mpr rfl), rfl, ?_⟩
            rcases copy_succeeds_fresh key old nid ts tr with hok | hnone
            · exact hok
            · rw [hl] at hnone
              cases hnone

theorem intersection_contains_false (marked keys : List String) (k : String)
    (hk : k ∈ keys) :
    (intersection marked keys).contains k = false ↔ marked.contains k = false := by
  unfold intersection
  constructor
  · intro h
    cases hm : marked.contains k
    · rfl
    · exfalso
      have hmem : k ∈ marked.filter (fun x => keys.contains x) := by
        rw [List.mem_filter]
        exact ⟨List.elem_iff.mp hm, List.elem_iff.mpr hk⟩
      have hc : (marked.filter (fun x => keys.contains x)).contains k = true :=
        List.elem_iff.mpr hmem
      rw [h] at hc
      cases hc
  · intro h
    cases hi : (marked.filter fun x => keys.contains x).contains k
    · rfl
    · exfalso
      have hmem := List.elem_iff.mp hi
      rw [List.mem_filter] at hmem
      have hc : marked.contains k = true := List.elem_iff.mpr hmem.1
      rw [h] at hc
      cases hc

theorem gcLoop_lookup (ts tr : ℕ) (marked : List String) (atlasList : List Atlas) :
    ∀ (items : List GItem) (cur : Option Atlas) (nm : List (String × ℕ)) (nid : ℕ)
      (k : String),
    (lookupKey (gcLoop ts tr marked atlasList items cur nm nid).2.2.1 k).isSome = true ↔
      ((lookupKey nm k).isSome = true ∨
       (marked.contains k = false ∧
        ∃ a ∈ atlasList, (lookupKey a.keyToLocation k).isSome = true)) := by
  induction atlasList with
  | nil =>
    intro items cur nm nid k
    simp [gcLoop]
  | cons atlas rest ih =>
    intro items cur nm nid k
    by_cases hemp : (intersection marked atlas.getKeys).isEmpty = true
    · have hstep : gcLoop ts tr marked (atlas :: rest) items cur nm nid
          = gcLoop ts tr marked rest (items ++ [GItem.fixed atlas]) cur
              (atlas.getKeys.foldl (fun m x => setKey m x atlas.id) nm) nid := by
        simp [gcLoop, hemp]
      have hnomark : ∀ x ∈ atlas.getKeys, marked.contains x = false := by
        intro x hx
        have h0 : (intersection marked atlas.getKeys).contains x = false := by
          rw [List.isEmpty_iff.mp hemp]
          rfl
        exact (intersection_contains_false marked atlas.getKeys x hx).mp h0
      rw [hstep, ih _ _ _ _ k, lookup_foldl_setKey]
      constructor
      · rintro ((h | hk) | ⟨hm, a, ha, hs⟩)
        · exact Or.inl h
        · exact Or.inr ⟨hnomark k hk, atlas, List.mem_cons_self _ _,
            (isSome_lookupKey_iff_mem_fst _ _).mpr hk⟩
        · exact Or.inr ⟨hm, a, List.mem_cons_of_mem _ ha, hs⟩
      · rintro (h | ⟨hm, a, ha, hs⟩)
        · exact Or.inl (Or.inl h)
        · rcases List.mem_cons.mp ha with rfl | ha2
          · exact Or.inl (Or.inr ((isSome_lookupKey_iff_mem_fst _ _).mp hs))
          · exact Or.inr ⟨hm, a, ha2, hs⟩
    · have hfinal : ∀ (nm2 : List (String × ℕ)),
          ((lookupKey nm2 k).isSome = true ↔
            ((lookupKey nm k).isSome = true ∨
             (k ∈ atlas.getKeys ∧
              (intersection marked atlas.getKeys).contains k = false ∧
              (lookupKey atlas.keyToLocation k).isSome = true))) →
          (((lookupKey nm2 k).isSome = true ∨
            (marked.contains k = false ∧
             ∃ a ∈ rest, (lookupKey a.keyToLocation k).isSome = true)) ↔
           ((lookupKey nm k).isSome = true ∨
            (marked.contains k = false ∧
             ∃ a ∈ atlas :: rest, (lookupKey a.keyToLocation k).isSome = true))) := by
        intro nm2 hchar
        rw [hchar]
        constructor
        · rintro ((h | ⟨hk, hic, hs⟩) | ⟨hm, a, ha, hs⟩)
          · exact Or.inl h
          · exact Or.inr ⟨(intersection_contains_false marked _ k hk).mp hic,
              atlas, List.mem_cons_self _ _, hs⟩
          · exact Or.inr ⟨hm, a, List.mem_cons_of_mem _ ha, hs⟩
        · rintro (h | ⟨hm, a, ha, hs⟩)
          · exact Or.inl (Or.inl h)
          · rcases List.mem_cons.mp ha with rfl | ha2
            · have hk : k ∈ a.getKeys := (isSome_lookupKey_iff_mem_fst _ _).mp hs
              exact Or.inl (Or.inr ⟨hk,
                (intersection_contains_false marked _ k hk).mpr hm, hs⟩)
            · exact Or.inr ⟨hm, a, ha2, hs⟩
      cases cur with
      | none =>
        have hstep : gcLoop ts tr marked (atlas :: rest) items none nm nid
            = gcLoop ts tr marked rest
                (copyKeysLoop ts tr atlas (intersection marked atlas.getKeys)
                  atlas.getKeys (items ++ [GItem.slot]) (Atlas.create nid ts tr)
                  nm (nid + 1)).1
                (some (copyKeysLoop ts tr atlas (intersection marked atlas.getKeys)
                  atlas.getKeys (items ++ [GItem.slot]) (Atlas.create nid ts tr)
                  nm (nid + 1)).2.1)
                (copyKeysLoop ts tr atlas (intersection marked atlas.getKeys)
                  atlas.getKeys (items ++ [GItem.slot]) (Atlas.create nid ts tr)
                  nm (nid + 1)).2.2.1
                (copyKeysLoop ts tr atlas (intersection marked atlas.getKeys)
                  atlas.getKeys (items ++ [GItem.slot]) (Atlas.create nid ts tr)
                  nm (nid + 1)).2.2.2 := by
          simp [gcLoop, hemp]
        rw [hstep, ih _ _ _ _ k]
        exact hfinal _ (copyKeysLoop_lookup ts tr atlas _ atlas.getKeys _ _ nm _ k)
      | some c0 =>
        have hstep : gcLoop ts tr marked (atlas :: rest) items (some c0) nm nid
            = gcLoop ts tr marked rest
                (copyKeysLoop ts tr atlas (intersection marked atlas.getKeys)
                  atlas.getKeys items c0 nm nid).1
                (some (copyKeysLoop ts tr atlas (intersection marked atlas.getKeys)
                  atlas.getKeys items c0 nm nid).2.1)
                (copyKeysLoop ts tr atlas (intersection marked atlas.getKeys)
                  atlas.getKeys items c0 nm nid).2.2.1
                (copyKeysLoop ts tr atlas (intersection marked atlas.getKeys)
                  atlas.getKeys items c0 nm nid).2.2.2 := by
          simp [gcLoop, hemp]
        rw [hstep, ih _ _ _ _ k]
        exact hfinal _ (copyKeysLoop_lookup ts tr atlas _ atlas.getKeys _ _ nm _ k)

theorem gcLoop_inv (ts tr : ℕ) (marked : List String) (atlasList : List Atlas) :
    ∀ (items : List GItem) (cur : Option Atlas) (nm : List (String × ℕ)) (nid : ℕ),
    items.count GItem.slot = (if cur.isSome then 1 else 0) →
    gcWitnessInv nm (resolveItems cur items) →
    (gcLoop ts tr marked atlasList items cur nm nid).1.count GItem.slot
      = (if (gcLoop ts tr marked atlasList items cur nm nid).2.1.isSome then 1 else 0) ∧
    gcWitnessInv (gcLoop ts tr marked atlasList items cur nm nid).2.2.1
      (resolveItems (gcLoop ts tr marked atlasList items cur nm nid).2.1
        (gcLoop ts tr marked atlasList items cur nm nid).1) := by
  induction atlasList with
  | nil =>
    intro items cur nm nid hcount hinv
    exact ⟨hcount, hinv⟩
  | cons atlas rest ih =>
    intro items cur nm nid hcount hinv
    by_cases hemp : (intersection marked atlas.getKeys).isEmpty = true
    · have hstep : gcLoop ts tr marked (atlas :: rest) items cur nm nid
          = gcLoop ts tr marked rest (items ++ [GItem.fixed atlas]) cur
              (atlas.getKeys.foldl (fun m x => setKey m x atlas.id) nm) nid := by
        simp [gcLoop, hemp]
      rw [hstep]
      refine ih _ _ _ _ ?_ ?_
      · rw [List.count_append]
        simpa using hcount
      · intro p hp
        rcases mem_foldl_setKey atlas.id atlas.getKeys nm p hp with hpnm | ⟨hk, hid⟩
        · obtain ⟨a, ha, haid, hak⟩ := hinv p hpnm
          rw [resolveItems_append]
          exact ⟨a, List.mem_append_left _ ha, haid, hak⟩
        · refine ⟨atlas, mem_resolveItems_of_fixed _ _ _
            (List.mem_append_right _ (List.mem_cons_self _ _)), hid.symm, ?_⟩
          exact (isSome_lookupKey_iff_mem_fst _ _).mpr hk
    · cases cur with
      | none =>
        have hstep : gcLoop ts tr marked (atlas :: rest) items none nm nid
            = gcLoop ts tr marked rest
                (copyKeysLoop ts tr atlas (intersection marked atlas.getKeys)
                  atlas.getKeys (items ++ [GItem.slot]) (Atlas.create nid ts tr)
                  nm (nid + 1)).1
                (some (copyKeysLoop ts tr atlas (intersection marked atlas.getKeys)
                  atlas.getKeys (items ++ [GItem.slot]) (Atlas.create nid ts tr)
                  nm (nid + 1)).2.1)
                (copyKeysLoop ts tr atlas (intersection marked atlas.getKeys)
                  atlas.getKeys (items ++ [GItem.slot]) (Atlas.create nid ts tr)
                  nm (nid + 1)).2.2.1
                (copyKeysLoop ts tr atlas (intersection marked atlas.getKeys)
                  atlas.getKeys (items ++ [GItem.slot]) (Atlas.create nid ts tr)
                  nm (nid + 1)).2.2.2 := by
          simp [gcLoop, hemp]
        rw [hstep]
        have hcount0 : items.count GItem.slot = 0 := by simpa using hcount
        have hnoslot : GItem.slot ∉ items := List.count_eq_zero.mp hcount0
        have hcount1 : (items ++ [GItem.slot]).count GItem.slot = 1 := by
          rw [List.count_append, hcount0]
          simp
        have hinv1 : gcWitnessInv nm
            (resolveItems (some (Atlas.create nid ts tr)) (items ++ [GItem.slot])) := by
          intro p hp
          obtain ⟨a, ha, haid, hak⟩ := hinv p hp
          rw [resolveItems_append]
          refine ⟨a, List.mem_append_left _ ?_, haid, hak⟩
          rw [resolveItems_noSlot items hnoslot (some (Atlas.create nid ts tr)) none]
          exact ha
        obtain ⟨hc2, hi2⟩ := copyKeysLoop_inv ts tr atlas
          (intersection marked atlas.getKeys) atlas.getKeys
          (items ++ [GItem.slot]) (Atlas.create nid ts tr) nm (nid + 1) hcount1 hinv1
        exact ih _ _ _ _ (by simpa using hc2) hi2
      | some c0 =>
        have hstep : gcLoop ts tr marked (atlas :: rest) items (some c0) nm nid
            = gcLoop ts tr marked rest
                (copyKeysLoop ts tr atlas (intersection marked atlas.getKeys)
                  atlas.getKeys items c0 nm nid).1
                (some (copyKeysLoop ts tr atlas (intersection marked atlas.getKeys)
                  atlas.getKeys items c0 nm nid).2.1)
                (copyKeysLoop ts tr atlas (intersection marked atlas.getKeys)
                  atlas.getKeys items c0 nm nid).2.2.1
                (copyKeysLoop ts tr atlas (intersection marked atlas.getKeys)
                  atlas.getKeys items c0 nm nid).2.2.2 := by
          simp [gcLoop, hemp]
        rw [hstep]
        have hcount1 : items.count GItem.slot = 1 := by simpa using hcount
        obtain ⟨hc2, hi2⟩ := copyKeysLoop_inv ts tr atlas
          (intersection marked atlas.getKeys) atlas.getKeys
          items c0 nm nid hcount1 hinv
        exact ih _ _ _ _ (by simpa using hc2) hi2

/-- C4: assuming collection invariant C1 (each mapped key is stored in an
atlas of the list with the mapped id, and each stored key is mapped), after
`AtlasCollection.gc()` the key set of `styleKeyToAtlas` equals the pre-call
key set minus the pre-call `markedKeys` (restricted to keys actually stored
in some atlas), `markedKeys` is empty, and every surviving key maps to an
atlas in the rebuilt list that contains it. -/
theorem gc_key_set_spec (c : AtlasCollection)
    (h1 : ∀ p ∈ c.styleKeyToAtlas, ∃ a ∈ c.atlases,
            a.id = p.2 ∧ (lookupKey a.keyToLocation p.1).isSome = true)
    (h2 : ∀ a ∈ c.atlases, ∀ q ∈ a.keyToLocation,
            (lookupKey c.styleKeyToAtlas q.1).isSome = true) :
    (∀ k, keyMapped c.gc k ↔
        (keyMapped c k ∧ k ∉ c.markedKeys ∧ keyStored c k))
  ∧ c.gc.markedKeys = []
  ∧ (∀ k id, lookupKey c.gc.styleKeyToAtlas k = some id →
        ∃ a ∈ c.gc.atlases, a.id = id ∧ (lookupKey a.keyToLocation k).isSome = true) := by
  by_cases hemp : c.markedKeys.isEmpty = true
  · have hgc : c.gc = c := by
      unfold AtlasCollection.gc
      rw [if_pos hemp]
    have hnil : c.markedKeys = [] := List.isEmpty_iff.mp hemp
    rw [hgc]
    refine ⟨?_, hnil, ?_⟩
    · intro k
      constructor
      · intro hm
        obtain ⟨v, hv⟩ := Option.isSome_iff_exists.mp hm
        obtain ⟨a, ha, _, hak⟩ := h1 (k, v) (mem_of_lookupKey _ _ _ hv)
        exact ⟨hm, by rw [hnil]; exact List.not_mem_nil k, a, ha, hak⟩
      · intro h
        exact h.1
    · intro k id hid
      exact h1 (k, id) (mem_of_lookupKey _ _ _ hid)
  · have hgc : c.gc = { c with
        atlases := resolveItems
          (gcLoop c.texSize c.texRows c.markedKeys c.atlases [] none [] c.nextId).2.1
          (gcLoop c.texSize c.texRows c.markedKeys c.atlases [] none [] c.nextId).1,
        styleKeyToAtlas :=
          (gcLoop c.texSize c.texRows c.markedKeys c.atlases [] none [] c.nextId).2.2.1,
        markedKeys := [],
        nextId :=
          (gcLoop c.texSize c.texRows c.markedKeys c.atlases [] none [] c.nextId).2.2.2 } := by
      unfold AtlasCollection.gc
      rw [if_neg hemp]
    rw [hgc]
    refine ⟨?_, rfl, ?_⟩
    · intro k
      unfold keyMapped keyStored
      dsimp only
      rw [gcLoop_lookup c.texSize c.texRows c.markedKeys c.atlases [] none [] c.nextId k]
      constructor
      · rintro (hnm | ⟨hmk, a, ha, hs⟩)
        · cases hnm
        · obtain ⟨v, hv⟩ := Option.isSome_iff_exists.mp hs
          refine ⟨h2 a ha (k, v) (mem_of_lookupKey _ _ _ hv), ?_, a, ha, hs⟩
          intro hmem
          have hc : c.markedKeys.contains k = true := List.elem_iff.mpr hmem
          rw [hmk] at hc
          cases hc
      · rintro ⟨_, hnot, a, ha, hs⟩
        refine Or.inr ⟨?_, a, ha, hs⟩
        cases hc : c.markedKeys.contains k
        · rfl
        · exact absurd (List.elem_iff.mp hc) hnot
    · intro k id hid
      dsimp only at hid ⊢
      obtain ⟨_, hi⟩ := gcLoop_inv c.texSize c.texRows c.markedKeys c.atlases
        [] none [] c.nextId rfl (fun p hp => absurd hp (List.not_mem_nil p))
      exact hi (k, id) (mem_of_lookupKey _ _ _ hid)

/-- C4 witness: in the S3 pre-gc state (keys A, B stored, A marked), `gc`
empties `markedKeys`, key B survives exactly as the key-set equation
states, and key A is dropped. -/
theorem gc_key_set_spec_witness :
    s3PreColl.gc.markedKeys = []
  ∧ (keyMapped s3PreColl.gc "B" ↔
      (keyMapped s3PreColl "B" ∧ "B" ∉ s3PreColl.markedKeys ∧ keyStored s3PreColl "B"))
  ∧ ¬ keyMapped s3PreColl.gc "A" := by
  have h := gc_key_set_spec s3PreColl
    (by with_unfolding_all decide) (by with_unfolding_all decide)
  refine ⟨h.2.1, h.1 "B", ?_⟩
  intro hA
  exact ((h.1 "A").mp hA).2.1 (by with_unfolding_all decide)

end Cytoscape
